import Mathlib

/-!
# Verification of `update_sheet.py`

A shallow embedding, in Lean 4, of the ward-callings spreadsheet sync
script `update_sheet.py`, together with proofs about its components:

* `makeCallingsData` embeds `make_callings_data` (the Schema Mapper);
* `getFilteredData` embeds `get_filtered_data` (the Row Filter);
* `emptySheetWrite` / `overlay` / `getValues` embed `empty_sheet` and the
  gspread-level semantics of `Worksheet.get_values` / `Worksheet.update`;
* `syncRun` embeds the sync phase of `main`;
* `trimLogsF` embeds `trim_logs` (the Log Rotator);
* `addLogToReadmeF` embeds `add_log_to_readme` (the Changelog Mirror);
* `runMain` embeds the control flow of `main` (try/except around the sync
  phase, then unconditional log rotation and README mirroring).

Conventions of the embedding:

* A spreadsheet cell value, as pandas sees it, is a `Cell`: either a string
  (`Cell.str`) or the missing-value sentinel NaN/NaT (`Cell.nan`), which is
  what pandas string accessors produce on empty input and what
  `pd.to_datetime` produces for unparsable-but-coercible input.
* Fallible Python code (exceptions) is embedded as `Option`: `none` means
  the Python code raises.
* The external date library (`pd.to_datetime(...).dt.strftime("%m/%d/%Y")`)
  is a parameter `fmt : String → Option Cell` of the embedding: `none`
  models a raised parse error, `some c` the per-value result.
* A Google sheet's stored state is a `Grid` (`List (List String)`); cells
  outside the stored lists are implicitly empty.  `getValues` models the
  Sheets API read used by gspread's `get_values`: each row is returned with
  its trailing empty cells removed, trailing all-empty rows are omitted,
  and gspread then pads the rows to a rectangle.  `overlay` models
  `Worksheet.update(values)`: it overwrites exactly the rectangle covered
  by the supplied values and leaves every other cell untouched.
-/

namespace WardCallings

/-- Python's `str.strip()` (also pandas `.str.strip()`): remove leading and
trailing whitespace.  Written character-wise so that it evaluates inside
the kernel. -/
def pyStrip (s : String) : String :=
  String.mk (((s.toList.dropWhile Char.isWhitespace).reverse.dropWhile Char.isWhitespace).reverse)

/-- Python's `str.lower()` (also pandas `.str.lower()`) on the ASCII range
the approval flags use. -/
def pyLower (s : String) : String := String.mk (s.toList.map Char.toLower)

/-- Split a character list on the two-character separator `"  "`,
non-overlapping, left to right: Python's `split("  ")`.  `acc` holds the
current field, reversed. -/
def splitTwoSpacesAux : List Char → List Char → List (List Char)
  | [], acc => [acc.reverse]
  | [c], acc => [(c :: acc).reverse]
  | c1 :: c2 :: cs, acc =>
    if c1 = ' ' ∧ c2 = ' ' then acc.reverse :: splitTwoSpacesAux cs []
    else splitTwoSpacesAux (c2 :: cs) (c1 :: acc)

/-- Python's `s.split("  ")`, the field splitter `add_log_to_readme` uses. -/
def pySplit2 (s : String) : List String := (splitTwoSpacesAux s.toList []).map String.mk

/-- A pandas cell value: a string, or the NaN/NaT missing-value sentinel. -/
inductive Cell : Type where
  | str (s : String) : Cell
  | nan : Cell
deriving DecidableEq

/-- Column lookup by name, first occurrence wins: `df[c]` for a single row
of a dataframe with column names `h` and cell values `r`.  Returns `none`
when the column is absent (pandas raises `KeyError`). -/
def getCell : List String → List Cell → String → Option Cell
  | [], _, _ => none
  | _ :: _, [], _ => none
  | n :: h, x :: r, c => if n = c then some x else getCell h r c

/-- Header after `df[c] = ...`: unchanged if the column exists, else the new
column is appended on the right (pandas column-assignment semantics). -/
def setColHeader (h : List String) (c : String) : List String :=
  if c ∈ h then h else h ++ [c]

/-- One row after `df[c] = ...` with per-row value `v`: every column named
`c` is overwritten if present, else `v` is appended on the right. -/
def setColRow (h : List String) (c : String) (v : Cell) (r : List Cell) : List Cell :=
  if c ∈ h then List.zipWith (fun n x => if n = c then v else x) h r else r ++ [v]

/-- The fixed header-rename table `simplified_name_map` of
`make_callings_data`, verbatim from the source. -/
def simplifiedNameMap : List (String × String) :=
  [("What is the Name of the Proposed Calling (please refer to General Handbook (https://www.churchofjesuschrist.org/study/manual/general-handbook/30-callings-in-the-church?lang=eng#title_number125) and Callings and Trainings (https://www.churchofjesuschrist.org/callings?lang=eng) for a reference on duties and authorized names for callings)?", "Calling"),
   ("Full Name of the Person Proposed for the Calling:", "PersonToCall"),
   ("Will this Require they be Released from a Current Calling?", "ReleaseRequired"),
   ("Name of the Proposed Organization to which the Person would be Called:", "Organization"),
   ("Once Again, Will this Require they be Released from a Current Calling?", "ReleaseRequired2"),
   ("If You Know, from which Organization are you Requesting this Person?", "CurrentOrganization"),
   ("Name of Person Submitting the Form", "FormSubmittedBy"),
   ("Ideal Date for Proposed Person to Begin Service", "IdealStartDate"),
   ("Does this Proposal Require Someone Else be Released from the Calling You are Asking to Fill?", "ReleaseCurrentlyServing"),
   ("Name of the Person Who Needs to be Released from this Calling:", "CurrentlyServing"),
   ("Is this Person Moving?", "Moving?"),
   ("Date they are Moving:", "MovingDate"),
   ("Any Additional Comments:", "Comments"),
   ("Calling Approval ", "BishopApproval"),
   ("Calling extended and accepted", "ExtendedAndAccepted")]

/-- Rename one column name through `simplified_name_map`; unmapped names
pass through unchanged (`DataFrame.rename` semantics). -/
def renameCol (c : String) : String :=
  match simplifiedNameMap.find? (fun p => p.1 == c) with
  | some p => p.2
  | none => c

/-- The renamed source header: row 1 of the form sheet after `rename`. -/
def rnHeader (hdr : List String) : List String := hdr.map renameCol

/-- Header after `calling_df["ScheduledMeetingWith"] = ""`. -/
def hdrSMW (hdr : List String) : List String :=
  setColHeader (rnHeader hdr) "ScheduledMeetingWith"

/-- Header after `calling_df["DateRequested"] = ...`. -/
def hdrDR (hdr : List String) : List String :=
  setColHeader (hdrSMW hdr) "DateRequested"

/-- Header of the dataframe produced by `make_callings_data`. -/
def callHeader (hdr : List String) : List String :=
  setColHeader (hdrDR hdr) "cleaned_approval_text"

/-- One data row after `calling_df["ScheduledMeetingWith"] = ""`. -/
def rowSMW (hdr : List String) (r : List String) : List Cell :=
  setColRow (rnHeader hdr) "ScheduledMeetingWith" (Cell.str "") (r.map Cell.str)

/-- Lift the date-library parameter to cells: `pd.to_datetime` keeps a
missing value missing (NaT), and is applied to the string otherwise. -/
def fmtCell (fmt : String → Option Cell) : Cell → Option Cell
  | Cell.str s => fmt s
  | Cell.nan => some Cell.nan

/-- The per-row value of the derived `DateRequested` column:
`pd.to_datetime(calling_df["Timestamp"]).dt.strftime("%m/%d/%Y")`. -/
def dateCell (fmt : String → Option Cell) (hdr : List String) (r : List String) : Cell :=
  ((getCell (hdrSMW hdr) (rowSMW hdr r) "Timestamp").bind (fmtCell fmt)).getD Cell.nan

/-- One data row after `calling_df["DateRequested"] = ...`. -/
def rowDR (fmt : String → Option Cell) (hdr : List String) (r : List String) : List Cell :=
  setColRow (hdrSMW hdr) "DateRequested" (dateCell fmt hdr r) (rowSMW hdr r)

/-- First character of the trimmed, lowercased approval text:
`calling_df["BishopApproval"].str.strip().str.lower().str[0]`.  Pandas
string accessors map NaN to NaN, and `.str[0]` of an empty string is NaN,
not an error.  `toLower` covers the ASCII range, which is what the
approval flags use. -/
def cleanCell : Option Cell → Cell
  | some (Cell.str s) =>
    match (pyLower (pyStrip s)).toList with
    | [] => Cell.nan
    | ch :: _ => Cell.str (String.mk [ch])
  | _ => Cell.nan

/-- The per-row value of the derived `cleaned_approval_text` column. -/
def approvalCell (fmt : String → Option Cell) (hdr : List String) (r : List String) : Cell :=
  cleanCell (getCell (hdrDR hdr) (rowDR fmt hdr r) "BishopApproval")

/-- One source data row pushed through the whole of `make_callings_data`. -/
def transRow (fmt : String → Option Cell) (hdr : List String) (r : List String) : List Cell :=
  setColRow (hdrDR hdr) "cleaned_approval_text" (approvalCell fmt hdr r) (rowDR fmt hdr r)

/-- Embeds `make_callings_data(form_data)`.  `none` models a raised
exception: an empty values list (`form_data[0]` raises `IndexError`),
ragged rows (the `DataFrame` constructor raises), a missing `Timestamp` or
`BishopApproval` column (`KeyError`), or a `Timestamp` value on which the
date library raises.  Otherwise the result is the renamed header with the
three derived columns, and every data row transformed by `transRow`. -/
def makeCallingsData (fmt : String → Option Cell) (formData : List (List String)) :
    Option (List String × List (List Cell)) :=
  match formData with
  | [] => none
  | hdr :: data =>
    if data.all (fun r => decide (r.length = hdr.length)) then
      if "Timestamp" ∈ hdrSMW hdr then
        if data.all (fun r => ((getCell (hdrSMW hdr) (rowSMW hdr r) "Timestamp").bind (fmtCell fmt)).isSome) then
          if "BishopApproval" ∈ hdrDR hdr then
            some (callHeader hdr, data.map (transRow fmt hdr))
          else none
        else none
      else none
    else none

/-- The fixed 10-column output list `keeps` of `get_filtered_data`. -/
def keeps : List String :=
  ["DateRequested", "PersonToCall", "Calling", "Organization", "FormSubmittedBy",
   "IdealStartDate", "BishopApproval", "ExtendedAndAccepted", "Sustained", "Set Apart"]

/-- The row predicate of `get_filtered_data`:
`(cleaned_approval_text == "y") & (Recorded == "")`.  A NaN cell compares
unequal to any string, as in pandas. -/
def rowPasses (h : List String) (r : List Cell) : Bool :=
  decide (getCell h r "cleaned_approval_text" = some (Cell.str "y") ∧
          getCell h r "Recorded" = some (Cell.str ""))

/-- The column projection of `get_filtered_data`: the `keeps` columns, in
that order, looked up by name. -/
def projectRow (h : List String) (r : List Cell) : List Cell :=
  keeps.map fun c => (getCell h r c).getD Cell.nan

/-- Embeds `get_filtered_data(calling_df)`.  `none` models the `KeyError`
raised by `.loc` when `cleaned_approval_text`, `Recorded`, or one of the
`keeps` columns is absent. -/
def getFilteredData (df : List String × List (List Cell)) :
    Option (List String × List (List Cell)) :=
  if ("cleaned_approval_text" ∈ df.1 ∧ "Recorded" ∈ df.1 ∧ ∀ c ∈ keeps, c ∈ df.1) then
    some (keeps,
      (df.2.filter fun r =>
          decide (getCell df.1 r "cleaned_approval_text" = some (Cell.str "y") ∧
                  getCell df.1 r "Recorded" = some (Cell.str ""))).map
        fun r => keeps.map fun c => (getCell df.1 r c).getD Cell.nan)
  else none

/-- Whether a cell is a plain string (JSON-serializable by gspread). -/
def isStr : Cell → Bool
  | Cell.str _ => true
  | Cell.nan => false

/-- The underlying string of a string cell. -/
def cellStr : Cell → String
  | Cell.str s => s
  | Cell.nan => ""

/-- Embeds `updated_df.values.tolist()` as handed to `Worksheet.update`:
every cell must be a plain string (a NaN float is not JSON-serializable,
so gspread would raise there, modelled as `none`). -/
def toStringRows (rows : List (List Cell)) : Option (List (List String)) :=
  if rows.all (fun r => r.all isStr) then some (rows.map fun r => r.map cellStr) else none

/-! ## The sheet layer -/

/-- The stored state of a worksheet: a list of rows of cell strings.  All
cells outside the stored lists are implicitly the empty string. -/
abbrev Grid := List (List String)

/-- A row as the Sheets API returns it: trailing empty cells removed. -/
def rstrip (r : List String) : List String :=
  (r.reverse.dropWhile fun s => decide (s = "")).reverse

/-- The rows the Sheets API returns for a grid: each row right-trimmed,
and trailing rows with no data omitted. -/
def stripRows (g : Grid) : Grid :=
  ((g.map rstrip).reverse.dropWhile fun r => decide (r = [])).reverse

/-- Number of rows `get_values` returns. -/
def numRows (g : Grid) : Nat := (stripRows g).length

/-- Number of columns `get_values` returns: the maximal trimmed row width. -/
def numCols (g : Grid) : Nat :=
  (stripRows g).foldr (fun r m => max r.length m) 0

/-- Pad a row on the right with empty strings up to width `w`. -/
def padTo (w : Nat) (r : List String) : List String :=
  r ++ List.replicate (w - r.length) ""

/-- Embeds gspread's `Worksheet.get_values()`: the API rows, padded by
gspread to a rectangle of the maximal width. -/
def getValues (g : Grid) : Grid := (stripRows g).map (padTo (numCols g))

/-- The value of the cell at row `i`, column `j` of a stored grid (empty
string outside the stored lists). -/
def cell (g : Grid) (i j : Nat) : String := (g.getD i []).getD j ""

/-- One row after an update: the supplied cells overwrite the left part,
the rest of the stored row is untouched. -/
def overlayRow (old new : List String) : List String := new ++ old.drop new.length

/-- Embeds `Worksheet.update(vals)` on the stored grid: row `i` of `vals`
overwrites the first `|vals[i]|` cells of stored row `i`; stored rows and
cells outside the written rectangle keep their values. -/
def overlay : Grid → Grid → Grid
  | g, [] => g
  | [], v :: vs => v :: overlay [] vs
  | r :: g, v :: vs => overlayRow r v :: overlay g vs

/-- The table `empty_sheet` writes back: the header row it just read,
unchanged, followed by one all-empty row per data row read.  `none` models
the `IndexError` of `sheet_values[0]` on a sheet with no values. -/
def emptySheetWrite (g : Grid) : Option Grid :=
  match getValues g with
  | [] => none
  | h :: d => some (h :: d.map fun r => r.map fun _ => "")

/-- Embeds the sync phase of `main` (steps: fetch source, transform,
filter, clear destination, write destination).  `src` is the source
sheet's `get_values()` result, `g` the destination sheet's stored grid;
the result is the destination's stored grid after the run, or `none` when
any step raises. -/
def syncRun (fmt : String → Option Cell) (src : List (List String)) (g : Grid) : Option Grid :=
  match makeCallingsData fmt src with
  | none => none
  | some df =>
    match getFilteredData df with
    | none => none
    | some pr =>
      match toStringRows pr.2 with
      | none => none
      | some srows =>
        match emptySheetWrite g with
        | none => none
        | some blanked => some (overlay (overlay g blanked) (pr.1 :: srows))

/-! ## The log and README layer -/

/-- Embeds `trim_logs` on the list of log lines: 21 or more lines are cut
down to the last 20, otherwise the file is left as it is. -/
def trimLogsF (logs : List String) : List String :=
  if 21 ≤ logs.length then logs.drop (logs.length - 20) else logs

/-- Embeds `add_log_to_readme` on the log lines and README lines.  The
last log line is split on two-space separators, the fields are stripped,
field 2 (the level) is deleted, the rest joined with `" UTC: "` and
prefixed with `"- "`; the result replaces the last README line.  `none`
models a raised `IndexError`: an empty log (`logs[-1]`), fewer than two
fields (`del most_recent_log_entry[1]`), or an empty README
(`readme[-1] = update`). -/
def addLogToReadmeF (logs readme : List String) : Option (List String) :=
  match logs.getLast? with
  | none => none
  | some last =>
    if 2 ≤ ((pySplit2 last).map pyStrip).length then
      if readme = [] then none
      else some (readme.dropLast ++
        ["- " ++ String.intercalate " UTC: " (((pySplit2 last).map pyStrip).eraseIdx 1)])
    else none

/-- The log line the run appends, per the configured format
`"%(asctime)s  %(levelname)-6s %(message)s"` (the level name is padded to
width 6, and the file handler terminates the record with a newline). -/
def logEntry (ts : String) (ok : Bool) : String :=
  ts ++ (if ok then "  INFO   Job successfully completed\n" else "  ERROR  Job failed\n")

/-- The two flat files `main` mutates. -/
structure FileState : Type where
  log : List String
  readme : List String
deriving DecidableEq

/-- Embeds the control flow of `main`: the sync phase runs inside
try/except, so whatever its outcome a status line is appended to the log
(`"Job failed"` on any exception, which is swallowed); then `trim_logs`
and `add_log_to_readme` run unconditionally, and an exception inside them
(`none` from `addLogToReadmeF`) propagates out of `main`. -/
def runMain {E : Type} (sync : Except E Unit) (ts : String) (st : FileState) :
    Option FileState :=
  let ok : Bool := match sync with
    | Except.ok _ => true
    | Except.error _ => false
  let log2 := trimLogsF (st.log ++ [logEntry ts ok])
  match addLogToReadmeF log2 st.readme with
  | none => none
  | some r => some ⟨log2, r⟩

/-! ## Concrete data used by witnesses and counterexamples -/

/-- A concrete instantiation of the date library: every timestamp parses
and formats to the same date. -/
def cFmt : String → Option Cell := fun _ => some (Cell.str "04/10/2022")

/-- A source header whose column names are already the canonical ones
(unmapped names pass through `rename` unchanged). -/
def cSrcHeader : List String :=
  ["Timestamp", "PersonToCall", "Calling", "Organization", "FormSubmittedBy",
   "IdealStartDate", "BishopApproval", "ExtendedAndAccepted", "Sustained", "Set Apart",
   "Recorded"]

/-- A row that is approved and not yet recorded. -/
def cRow1 : List String :=
  ["2022-04-09 10:00:00", "Alice", "Pianist", "Primary", "Bob", "2022-04-17",
   "Yes", "No", "No", "No", ""]

/-- A row that is approved but already recorded. -/
def cRow2 : List String :=
  ["2022-04-09 11:00:00", "Carol", "Teacher", "Sunday School", "Bob", "2022-04-17",
   "Yes", "Yes", "Yes", "Yes", "x"]

/-- A row the bishop has not approved. -/
def cRow3 : List String :=
  ["2022-04-09 12:00:00", "Dave", "Clerk", "Ward", "Bob", "2022-04-17",
   "no", "No", "No", "No", ""]

/-- A second approved, unrecorded row. -/
def cRow4 : List String :=
  ["2022-04-09 13:00:00", "Eve", "Organist", "Ward", "Bob", "2022-05-01",
   "yes please", "No", "No", "No", ""]

/-- A row whose `BishopApproval` field is empty. -/
def cRowEmptyApproval : List String :=
  ["2022-04-09 14:00:00", "Pat", "Greeter", "Ward", "Bob", "2022-04-17",
   "", "No", "No", "No", ""]

/-- A concrete source table: of its three rows exactly `cRow1` passes. -/
def cSrc : List (List String) := [cSrcHeader, cRow1, cRow2, cRow3]

/-- A concrete source table with two passing rows (`cRow1`, `cRow4`). -/
def cSrcW : List (List String) := [cSrcHeader, cRow1, cRow4, cRow3]

/-- `cRow1` filtered and projected to the `keeps` columns, as strings. -/
def cFiltered1 : List String :=
  ["04/10/2022", "Alice", "Pianist", "Primary", "Bob", "2022-04-17", "Yes", "No", "No", "No"]

/-- `cRow4` filtered and projected to the `keeps` columns, as strings. -/
def cFiltered4 : List String :=
  ["04/10/2022", "Eve", "Organist", "Ward", "Bob", "2022-05-01", "yes please", "No", "No", "No"]

/-- A generic stale destination data row, 10 cells wide. -/
def cStale : List String := ["a", "b", "c", "d", "e", "f", "g", "h", "i", "j"]

/-- A destination sheet with the 10 canonical columns and 5 stale data
rows. -/
def cDest10 : Grid := [keeps, cStale, cStale, cStale, cStale, cStale]

/-- A destination sheet with an 11th column `Extra` and one stale data
row. -/
def cDestWide : Grid :=
  [keeps ++ ["Extra"], ["d1", "d2", "d3", "d4", "d5", "d6", "d7", "d8", "d9", "d10", "d11"]]

/-- An all-empty 10-cell row. -/
def cBlank10 : List String := ["", "", "", "", "", "", "", "", "", ""]

/-- The destination grid after one sync of `cSrcW` into `cDest10`. -/
def cAfter1 : Grid :=
  [keeps, cFiltered1, cFiltered4, cBlank10, cBlank10, cBlank10]

/-- The filtered dataframe the pipeline produces for `cSrcW`. -/
def cPr : List String × List (List Cell) :=
  (keeps, [projectRow (callHeader cSrcHeader) (transRow cFmt cSrcHeader cRow1),
           projectRow (callHeader cSrcHeader) (transRow cFmt cSrcHeader cRow4)])

/-- The destination grid after one sync of `cSrc` into `cDestWide`: the
stale 11th header column survives. -/
def cWideOut : Grid := [keeps ++ ["Extra"], cFiltered1 ++ [""]]

/-- The example log line used by the spec for the Changelog Mirror. -/
def exLogLine : String := "2024-01-01 10:00:00  INFO   Job successfully completed"

/-- The status-document line the spec expects for `exLogLine`. -/
def exOutLine : String := "- 2024-01-01 10:00:00 UTC: Job successfully completed"

/-! ## Lemmas: column lookup and column assignment -/

theorem getCell_eq_none {h : List String} {r : List Cell} {c : String} (hc : c ∉ h) :
    getCell h r c = none := by
  induction h generalizing r with
  | nil => cases r <;> rfl
  | cons n h ih =>
    cases r with
    | nil => rfl
    | cons x r =>
      have hn : n ≠ c := fun e => hc (e ▸ List.mem_cons_self n h)
      simp only [getCell, if_neg hn]
      exact ih (fun e => hc (List.mem_cons_of_mem _ e))

theorem getCell_zipWith_eq {h : List String} {r : List Cell} {c : String} (v : Cell)
    (hc : c ∈ h) (hl : r.length = h.length) :
    getCell h (List.zipWith (fun n x => if n = c then v else x) h r) c = some v := by
  induction h generalizing r with
  | nil => cases hc
  | cons n h ih =>
    cases r with
    | nil => simp at hl
    | cons x r =>
      by_cases hn : n = c
      · simp [getCell, List.zipWith_cons_cons, if_pos hn, hn]
      · have hch : c ∈ h := by
          rcases List.mem_cons.1 hc with e | e
          · exact absurd e.symm hn
          · exact e
        simp only [List.zipWith_cons_cons, getCell, if_neg hn]
        exact ih hch (Nat.succ.inj hl)

theorem getCell_zipWith_ne {h : List String} {r : List Cell} {c c' : String} (v : Cell)
    (hne : c' ≠ c) :
    getCell h (List.zipWith (fun n x => if n = c then v else x) h r) c' = getCell h r c' := by
  induction h generalizing r with
  | nil => cases r <;> rfl
  | cons n h ih =>
    cases r with
    | nil => rfl
    | cons x r =>
      by_cases hn : n = c'
      · have hnc : n ≠ c := fun e => hne (hn ▸ e ▸ rfl)
        simp [getCell, List.zipWith_cons_cons, if_pos hn, if_neg hnc]
      · simp only [List.zipWith_cons_cons, getCell, if_neg hn]
        exact ih

theorem getCell_snoc_eq {h : List String} {r : List Cell} {c : String} (v : Cell)
    (hc : c ∉ h) (hl : r.length = h.length) :
    getCell (h ++ [c]) (r ++ [v]) c = some v := by
  induction h generalizing r with
  | nil =>
    cases r with
    | nil => simp [getCell]
    | cons x r => simp at hl
  | cons n h ih =>
    cases r with
    | nil => simp at hl
    | cons x r =>
      have hn : n ≠ c := fun e => hc (e ▸ List.mem_cons_self n h)
      simp only [List.cons_append, getCell, if_neg hn]
      exact ih (fun m => hc (List.mem_cons_of_mem _ m)) (Nat.succ.inj hl)

theorem getCell_snoc_ne {h : List String} {r : List Cell} {c c' : String} (v : Cell)
    (hne : c' ≠ c) (hl : r.length = h.length) :
    getCell (h ++ [c]) (r ++ [v]) c' = getCell h r c' := by
  induction h generalizing r with
  | nil =>
    cases r with
    | nil =>
      have : c ≠ c' := fun e => hne e.symm
      simp [getCell, if_neg this]
    | cons x r => simp at hl
  | cons n h ih =>
    cases r with
    | nil => simp at hl
    | cons x r =>
      by_cases hn : n = c'
      · simp [getCell, if_pos hn]
      · simp only [List.cons_append, getCell, if_neg hn]
        exact ih (Nat.succ.inj hl)

theorem getCell_setCol_eq {h : List String} {r : List Cell} (c : String) (v : Cell)
    (hl : r.length = h.length) :
    getCell (setColHeader h c) (setColRow h c v r) c = some v := by
  unfold setColHeader setColRow
  by_cases hc : c ∈ h
  · rw [if_pos hc, if_pos hc]
    exact getCell_zipWith_eq v hc hl
  · rw [if_neg hc, if_neg hc]
    exact getCell_snoc_eq v hc hl

theorem getCell_setCol_ne {h : List String} {r : List Cell} {c c' : String} (v : Cell)
    (hne : c' ≠ c) (hl : r.length = h.length) :
    getCell (setColHeader h c) (setColRow h c v r) c' = getCell h r c' := by
  unfold setColHeader setColRow
  by_cases hc : c ∈ h
  · rw [if_pos hc, if_pos hc]
    exact getCell_zipWith_ne v hne
  · rw [if_neg hc, if_neg hc]
    exact getCell_snoc_ne v hne hl

theorem length_setColRow {h : List String} {r : List Cell} (c : String) (v : Cell)
    (hl : r.length = h.length) :
    (setColRow h c v r).length = (setColHeader h c).length := by
  unfold setColHeader setColRow
  by_cases hc : c ∈ h
  · rw [if_pos hc, if_pos hc, List.length_zipWith, hl, Nat.min_self]
  · rw [if_neg hc, if_neg hc]
    simp [hl]

/-! ## Lemmas: the Schema Mapper -/

theorem length_rowSMW {hdr r : List String} (hl : r.length = hdr.length) :
    (rowSMW hdr r).length = (hdrSMW hdr).length :=
  length_setColRow _ _ (by simp [rnHeader, hl])

theorem length_rowDR (fmt : String → Option Cell) {hdr r : List String}
    (hl : r.length = hdr.length) :
    (rowDR fmt hdr r).length = (hdrDR hdr).length :=
  length_setColRow _ _ (length_rowSMW hl)

theorem length_transRow (fmt : String → Option Cell) {hdr r : List String}
    (hl : r.length = hdr.length) :
    (transRow fmt hdr r).length = (callHeader hdr).length :=
  length_setColRow _ _ (length_rowDR fmt hl)

theorem getCell_transRow_ne (fmt : String → Option Cell) {hdr r : List String} {c : String}
    (hl : r.length = hdr.length) (h1 : c ≠ "cleaned_approval_text")
    (h2 : c ≠ "DateRequested") (h3 : c ≠ "ScheduledMeetingWith") :
    getCell (callHeader hdr) (transRow fmt hdr r) c = getCell (rnHeader hdr) (r.map Cell.str) c := by
  unfold transRow callHeader
  rw [getCell_setCol_ne _ h1 (length_rowDR fmt hl)]
  unfold rowDR hdrDR
  rw [getCell_setCol_ne _ h2 (length_rowSMW hl)]
  unfold rowSMW hdrSMW
  rw [getCell_setCol_ne _ h3 (by simp [rnHeader, hl])]

theorem getCell_transRow_smw (fmt : String → Option Cell) {hdr r : List String}
    (hl : r.length = hdr.length) :
    getCell (callHeader hdr) (transRow fmt hdr r) "ScheduledMeetingWith" = some (Cell.str "") := by
  unfold transRow callHeader
  rw [getCell_setCol_ne _ (by decide) (length_rowDR fmt hl)]
  unfold rowDR hdrDR
  rw [getCell_setCol_ne _ (by decide) (length_rowSMW hl)]
  unfold rowSMW hdrSMW
  exact getCell_setCol_eq _ _ (by simp [rnHeader, hl])

theorem getCell_transRow_cleaned (fmt : String → Option Cell) {hdr r : List String}
    (hl : r.length = hdr.length) :
    getCell (callHeader hdr) (transRow fmt hdr r) "cleaned_approval_text" =
      some (approvalCell fmt hdr r) := by
  unfold transRow callHeader
  exact getCell_setCol_eq _ _ (length_rowDR fmt hl)

theorem approvalCell_eq (fmt : String → Option Cell) {hdr r : List String}
    (hl : r.length = hdr.length) :
    approvalCell fmt hdr r =
      cleanCell (getCell (rnHeader hdr) (r.map Cell.str) "BishopApproval") := by
  unfold approvalCell rowDR hdrDR
  rw [getCell_setCol_ne _ (by decide) (length_rowSMW hl)]
  unfold rowSMW hdrSMW
  rw [getCell_setCol_ne _ (by decide) (by simp [rnHeader, hl])]

theorem getCell_transRow_bishop (fmt : String → Option Cell) {hdr r : List String}
    (hl : r.length = hdr.length) :
    getCell (callHeader hdr) (transRow fmt hdr r) "BishopApproval" =
      getCell (rnHeader hdr) (r.map Cell.str) "BishopApproval" :=
  getCell_transRow_ne fmt hl (by decide) (by decide) (by decide)

theorem makeCallingsData_intro (fmt : String → Option Cell) (hdr : List String)
    (data : List (List String))
    (hrect : ∀ r ∈ data, r.length = hdr.length)
    (hts : "Timestamp" ∈ hdrSMW hdr)
    (hfmt : ∀ r ∈ data,
      ((getCell (hdrSMW hdr) (rowSMW hdr r) "Timestamp").bind (fmtCell fmt)).isSome = true)
    (hba : "BishopApproval" ∈ hdrDR hdr) :
    makeCallingsData fmt (hdr :: data) = some (callHeader hdr, data.map (transRow fmt hdr)) := by
  simp only [makeCallingsData]
  rw [if_pos (List.all_eq_true.2 fun r hr => decide_eq_true (hrect r hr)),
    if_pos hts, if_pos (List.all_eq_true.2 fun r hr => hfmt r hr), if_pos hba]

theorem makeCallingsData_elim {fmt : String → Option Cell} {formData : List (List String)}
    {h : List String} {rows : List (List Cell)}
    (hm : makeCallingsData fmt formData = some (h, rows)) :
    ∃ hdr data, formData = hdr :: data ∧ h = callHeader hdr ∧
      rows = data.map (transRow fmt hdr) ∧ (∀ r ∈ data, r.length = hdr.length) ∧
      "Timestamp" ∈ hdrSMW hdr ∧ "BishopApproval" ∈ hdrDR hdr := by
  cases formData with
  | nil => cases hm
  | cons hdr data =>
    refine ⟨hdr, data, rfl, ?_⟩
    simp only [makeCallingsData] at hm
    split at hm
    case isTrue h1 =>
      split at hm
      case isTrue hts =>
        split at hm
        case isTrue h2 =>
          split at hm
          case isTrue hba =>
            obtain ⟨rfl, rfl⟩ := Prod.mk.injEq _ _ _ _ ▸ Option.some.inj hm
            exact ⟨rfl, rfl,
              fun r hr => of_decide_eq_true (List.all_eq_true.1 h1 r hr), hts, hba⟩
          case isFalse => cases hm
        case isFalse => cases hm
      case isFalse => cases hm
    case isFalse => cases hm

/-! ## Claim theorems: Schema Mapper and Row Filter -/

/-- C9: the Schema Mapper (`make_callings_data`) output contains a
`ScheduledMeetingWith` column whose value is the empty string for every
row; whenever `make_callings_data` returns a dataframe, every row of it
has `""` in the `ScheduledMeetingWith` column. -/
theorem c9_scheduled_meeting_with_empty {fmt : String → Option Cell}
    {formData : List (List String)} {h : List String} {rows : List (List Cell)}
    (hm : makeCallingsData fmt formData = some (h, rows)) :
    ∀ r ∈ rows, getCell h r "ScheduledMeetingWith" = some (Cell.str "") := by
  obtain ⟨hdr, data, -, rfl, rfl, hrect, -, -⟩ := makeCallingsData_elim hm
  intro r hr
  obtain ⟨r0, hr0, rfl⟩ := List.mem_map.1 hr
  exact getCell_transRow_smw fmt (hrect r0 hr0)

/-- Witness for C9 at a concrete form sheet. -/
theorem c9_witness :
    getCell (callHeader cSrcHeader) (transRow cFmt cSrcHeader cRow1) "ScheduledMeetingWith" =
      some (Cell.str "") :=
  c9_scheduled_meeting_with_empty
    (show makeCallingsData cFmt cSrc =
      some (callHeader cSrcHeader, [cRow1, cRow2, cRow3].map (transRow cFmt cSrcHeader))
      by decide)
    (transRow cFmt cSrcHeader cRow1) (by decide)

/-- C1: the Row Filter (`get_filtered_data`) returns exactly the rows
whose `cleaned_approval_text` is `"y"` and whose `Recorded` field is the
empty string, in source order, projected to exactly the fixed 10-column
`keeps` list in that order; the header hypotheses say only that the
needed columns exist somewhere in the input header, so the result is the
same regardless of source column order, and no row violating either
predicate appears (the output is literally the filtered list). -/
theorem c1_row_filter_exact (h : List String) (rows : List (List Cell))
    (hc : "cleaned_approval_text" ∈ h) (hr : "Recorded" ∈ h)
    (hk : ∀ c ∈ keeps, c ∈ h) :
    getFilteredData (h, rows) = some (keeps, (rows.filter (rowPasses h)).map (projectRow h)) ∧
    ∀ r ∈ (rows.filter (rowPasses h)).map (projectRow h),
      r.length = keeps.length ∧ ∃ r0 ∈ rows, rowPasses h r0 = true ∧ r = projectRow h r0 := by
  constructor
  · unfold getFilteredData
    rw [if_pos ⟨hc, hr, hk⟩]
    rfl
  · intro r hrr
    obtain ⟨r0, h0, rfl⟩ := List.mem_map.1 hrr
    have h1 := List.mem_filter.1 h0
    exact ⟨by simp [projectRow], r0, h1.1, h1.2, rfl⟩

/-- Witness for C1 at a concrete three-row dataframe. -/
theorem c1_witness :
    getFilteredData (callHeader cSrcHeader,
        [transRow cFmt cSrcHeader cRow1, transRow cFmt cSrcHeader cRow2,
         transRow cFmt cSrcHeader cRow3]) =
      some (keeps,
        ([transRow cFmt cSrcHeader cRow1, transRow cFmt cSrcHeader cRow2,
          transRow cFmt cSrcHeader cRow3].filter (rowPasses (callHeader cSrcHeader))).map
          (projectRow (callHeader cSrcHeader))) :=
  (c1_row_filter_exact _ _ (by decide) (by decide) (by decide)).1

/-- C7: an empty (or all-whitespace) `BishopApproval` value does not make
`make_callings_data` raise: the run still succeeds, the row's
`cleaned_approval_text` becomes the missing-value sentinel NaN (pandas
`.str[0]` of an empty string), and the row fails the Row Filter's
`cleaned_approval_text == "y"` predicate, so it is excluded. -/
theorem c7_empty_approval_graceful (fmt : String → Option Cell) (hdr : List String)
    (data : List (List String))
    (hrect : ∀ r ∈ data, r.length = hdr.length)
    (hts : "Timestamp" ∈ hdrSMW hdr)
    (hfmt : ∀ r ∈ data,
      ((getCell (hdrSMW hdr) (rowSMW hdr r) "Timestamp").bind (fmtCell fmt)).isSome = true)
    (hba : "BishopApproval" ∈ hdrDR hdr)
    (r : List String) (hr : r ∈ data) (b : String)
    (hb : getCell (rnHeader hdr) (r.map Cell.str) "BishopApproval" = some (Cell.str b))
    (hbe : pyStrip b = "") :
    makeCallingsData fmt (hdr :: data) = some (callHeader hdr, data.map (transRow fmt hdr)) ∧
    transRow fmt hdr r ∈ data.map (transRow fmt hdr) ∧
    getCell (callHeader hdr) (transRow fmt hdr r) "cleaned_approval_text" = some Cell.nan ∧
    rowPasses (callHeader hdr) (transRow fmt hdr r) = false := by
  have hlen := hrect r hr
  have hcc : cleanCell (some (Cell.str b)) = Cell.nan := by
    have h0 : (pyLower (pyStrip b)).toList = [] := by rw [hbe]; rfl
    simp only [cleanCell, h0]
  have hclean : approvalCell fmt hdr r = Cell.nan := by
    rw [approvalCell_eq fmt hlen, hb, hcc]
  have hget : getCell (callHeader hdr) (transRow fmt hdr r) "cleaned_approval_text" =
      some Cell.nan := by
    rw [getCell_transRow_cleaned fmt hlen, hclean]
  refine ⟨makeCallingsData_intro fmt hdr data hrect hts hfmt hba,
    List.mem_map_of_mem _ hr, hget, ?_⟩
  have hnp : ¬(getCell (callHeader hdr) (transRow fmt hdr r) "cleaned_approval_text" =
      some (Cell.str "y") ∧
      getCell (callHeader hdr) (transRow fmt hdr r) "Recorded" = some (Cell.str "")) := by
    rintro ⟨h1, -⟩
    rw [hget] at h1
    simp at h1
  exact decide_eq_false hnp

/-- Witness for C7 at a concrete row with an empty approval field. -/
theorem c7_witness :
    makeCallingsData cFmt (cSrcHeader :: [cRowEmptyApproval]) =
      some (callHeader cSrcHeader, [cRowEmptyApproval].map (transRow cFmt cSrcHeader)) ∧
    transRow cFmt cSrcHeader cRowEmptyApproval ∈
      [cRowEmptyApproval].map (transRow cFmt cSrcHeader) ∧
    getCell (callHeader cSrcHeader) (transRow cFmt cSrcHeader cRowEmptyApproval)
      "cleaned_approval_text" = some Cell.nan ∧
    rowPasses (callHeader cSrcHeader) (transRow cFmt cSrcHeader cRowEmptyApproval) = false :=
  c7_empty_approval_graceful cFmt cSrcHeader [cRowEmptyApproval] (by decide) (by decide)
    (by decide) (by decide) cRowEmptyApproval (by decide) "" (by decide) (by decide)

/-! ## Claim theorems: Log Rotator and Changelog Mirror -/

/-- C4: `trim_logs` always leaves a suffix of the original lines: with at
least 21 lines exactly the last 20 remain, in order; with at most 20
lines the file is unchanged (hence a no-op, and idempotent there). -/
theorem c4_trim_logs (logs : List String) :
    (21 ≤ logs.length →
      trimLogsF logs = logs.drop (logs.length - 20) ∧ (trimLogsF logs).length = 20) ∧
    (logs.length ≤ 20 → trimLogsF logs = logs) ∧
    (trimLogsF logs).IsSuffix logs := by
  refine ⟨fun h => ?_, fun h => ?_, ?_⟩
  · rw [trimLogsF, if_pos h]
    exact ⟨rfl, by rw [List.length_drop]; omega⟩
  · rw [trimLogsF, if_neg (by omega)]
  · rw [trimLogsF]
    split
    · exact List.drop_suffix _ _
    · exact List.suffix_refl _

/-- Witness for C4 on a 25-line log and a 10-line log. -/
theorem c4_witness :
    (trimLogsF ((List.range 25).map toString) =
        ((List.range 25).map toString).drop (((List.range 25).map toString).length - 20) ∧
      (trimLogsF ((List.range 25).map toString)).length = 20) ∧
    trimLogsF ((List.range 10).map toString) = (List.range 10).map toString :=
  ⟨(c4_trim_logs ((List.range 25).map toString)).1 (by decide),
   (c4_trim_logs ((List.range 10).map toString)).2.1 (by decide)⟩

/-- C5: on a log whose last line is
`"2024-01-01 10:00:00  INFO   Job successfully completed"`,
`add_log_to_readme` replaces the status document's last line with
`"- 2024-01-01 10:00:00 UTC: Job successfully completed"`: the line is
split on the two-space separator, each field stripped, the second (level)
field deleted, the rest joined with `" UTC: "` and prefixed `"- "`. -/
theorem c5_changelog_mirror (logs readme : List String)
    (hl : logs.getLast? = some exLogLine) (hr : readme ≠ []) :
    addLogToReadmeF logs readme = some (readme.dropLast ++ [exOutLine]) ∧
    (readme.dropLast ++ [exOutLine]).getLast? = some exOutLine := by
  constructor
  · simp only [addLogToReadmeF, hl]
    rw [if_pos (by decide), if_neg hr]
    have he : "- " ++ String.intercalate " UTC: "
        (((pySplit2 exLogLine).map pyStrip).eraseIdx 1) = exOutLine := by decide
    rw [he]
  · simp

/-- Witness for C5 at a concrete log and status document. -/
theorem c5_witness :
    addLogToReadmeF ["older line", exLogLine] ["# Title", "- old status"] =
      some (["# Title", "- old status"].dropLast ++ [exOutLine]) :=
  (c5_changelog_mirror ["older line", exLogLine] ["# Title", "- old status"]
    (by decide) (by decide)).1

theorem get?_dropLast {α : Type} (l : List α) (i : Nat) (h : i + 1 < l.length) :
    l.dropLast[i]? = l[i]? := by
  induction l generalizing i with
  | nil => simp at h
  | cons a l ih =>
    cases l with
    | nil => simp at h
    | cons b l =>
      cases i with
      | zero => simp
      | succ i =>
        have hi : i + 1 < (b :: l).length := by
          simpa using Nat.lt_of_succ_lt_succ h
        simpa [List.dropLast] using ih i hi

/-- C6: `add_log_to_readme` modifies only the last line of the status
document: whenever it succeeds, the line count is preserved and every
line except the last is written back unchanged. -/
theorem c6_readme_frame (logs readme out : List String)
    (hs : addLogToReadmeF logs readme = some out) :
    out.length = readme.length ∧ out.dropLast = readme.dropLast ∧
    ∀ i, i + 1 < readme.length → out[i]? = readme[i]? := by
  unfold addLogToReadmeF at hs
  split at hs
  · cases hs
  · rename_i L hL
    split at hs
    · split at hs
      · cases hs
      · rename_i hlen hre
        obtain rfl : readme.dropLast ++
            ["- " ++ String.intercalate " UTC: " (((pySplit2 L).map pyStrip).eraseIdx 1)] =
            out := Option.some.inj hs
        have hlenr : 1 ≤ readme.length := by
          cases readme with
          | nil => exact absurd rfl hre
          | cons a l => simp
        refine ⟨?_, by simp, fun i hi => ?_⟩
        · simp [List.length_dropLast]
          omega
        · rw [List.getElem?_append,
            if_pos (show i < readme.dropLast.length by simp [List.length_dropLast]; omega)]
          exact get?_dropLast readme i hi
    · cases hs

/-- Witness for C6 at a concrete log and status document. -/
theorem c6_witness :
    (["# Title", "- old status"].dropLast ++ [exOutLine]).length =
      ["# Title", "- old status"].length ∧
    (["# Title", "- old status"].dropLast ++ [exOutLine]).dropLast =
      ["# Title", "- old status"].dropLast :=
  ⟨(c6_readme_frame ["older line", exLogLine] ["# Title", "- old status"] _ (by decide)).1,
   (c6_readme_frame ["older line", exLogLine] ["# Title", "- old status"] _ (by decide)).2.1⟩

/-- C3: the control flow of `main`.  Any exception during the sync phase
is caught at the outer boundary, logged as `"Job failed"`, and swallowed
(the result does not depend on which exception was raised); log rotation
and README mirroring still run afterwards on both outcomes; and `main`
itself fails only when `add_log_to_readme` raises, i.e. errors inside the
post-sync phase are not caught and propagate. -/
theorem c3_failure_boundary {E : Type} (e1 e2 : E) (ts : String) (st : FileState) :
    runMain (Except.error e1) ts st = runMain (Except.error e2) ts st ∧
    runMain (Except.error e1) ts st =
      (match addLogToReadmeF (trimLogsF (st.log ++ [logEntry ts false])) st.readme with
       | none => none
       | some r => some ⟨trimLogsF (st.log ++ [logEntry ts false]), r⟩) ∧
    runMain ((Except.ok ()) : Except E Unit) ts st =
      (match addLogToReadmeF (trimLogsF (st.log ++ [logEntry ts true])) st.readme with
       | none => none
       | some r => some ⟨trimLogsF (st.log ++ [logEntry ts true]), r⟩) ∧
    (runMain (Except.error e1) ts st = none ↔
      addLogToReadmeF (trimLogsF (st.log ++ [logEntry ts false])) st.readme = none) ∧
    logEntry ts false = ts ++ "  ERROR  Job failed\n" := by
  refine ⟨rfl, rfl, rfl, ?_, rfl⟩
  cases hml : addLogToReadmeF (trimLogsF (st.log ++ [logEntry ts false])) st.readme with
  | none => simp [runMain, hml]
  | some r => simp [runMain, hml]

/-! ## Lemmas: the sheet layer -/

theorem getD_replicate_self {α : Type} (a : α) (k m : Nat) :
    (List.replicate k a).getD m a = a := by
  rcases Nat.lt_or_ge m k with h | h
  · rw [List.getD_eq_getElem _ _ (by simpa using h)]
    simp
  · exact List.getD_eq_default _ _ (by simpa using h)

theorem getD_last {α : Type} (l : List α) (d : α) (h : l ≠ []) :
    l.getD (l.length - 1) d = l.getLast h := by
  rw [List.getD_eq_getElem _ _ (by have := List.length_pos.2 h; omega)]
  exact (List.getLast_eq_getElem l h).symm

theorem range_map_getD {α : Type} (r : List α) (d : α) :
    (List.range r.length).map (fun j => r.getD j d) = r := by
  apply List.ext_getElem (by simp)
  intro j h1 h2
  rw [List.getElem_map, List.getElem_range, List.getD_eq_getElem _ _ h2]

theorem dropWhile_head_false {α : Type} {p : α → Bool} {l : List α} {a : α} {t : List α}
    (h : l.dropWhile p = a :: t) : p a = false := by
  induction l with
  | nil => cases h
  | cons x xs ih =>
    rw [List.dropWhile_cons] at h
    by_cases hx : p x
    · rw [if_pos hx] at h
      exact ih h
    · rw [if_neg hx] at h
      injection h with h1 h2
      subst h1
      exact Bool.eq_false_iff.2 hx

theorem mem_takeWhile_pred {α : Type} {p : α → Bool} {l : List α} {b : α}
    (h : b ∈ l.takeWhile p) : p b = true := by
  induction l with
  | nil => simp [List.takeWhile] at h
  | cons x xs ih =>
    rw [List.takeWhile_cons] at h
    by_cases hx : p x
    · rw [if_pos hx] at h
      rcases List.mem_cons.1 h with rfl | h2
      · exact hx
      · exact ih h2
    · rw [if_neg hx] at h
      cases h

theorem rstrip_decomp (r : List String) : ∃ k, r = rstrip r ++ List.replicate k "" := by
  refine ⟨(r.reverse.takeWhile fun s => decide (s = "")).length, ?_⟩
  have h1 := congrArg List.reverse
    (List.takeWhile_append_dropWhile (fun s => decide (s = "")) r.reverse)
  rw [List.reverse_append, List.reverse_reverse] at h1
  have h2 : (r.reverse.takeWhile fun s => decide (s = "")).reverse =
      List.replicate (r.reverse.takeWhile fun s => decide (s = "")).length "" := by
    apply List.eq_replicate_iff.2
    refine ⟨by simp, fun b hb => ?_⟩
    have hbt : b ∈ r.reverse.takeWhile (fun s => decide (s = "")) := List.mem_reverse.1 hb
    have hp := mem_takeWhile_pred hbt
    exact of_decide_eq_true hp
  rw [rstrip]
  conv_lhs => rw [← h1]
  rw [h2]

theorem getD_rstrip (r : List String) (j : Nat) : (rstrip r).getD j "" = r.getD j "" := by
  obtain ⟨k, hk⟩ := rstrip_decomp r
  rcases Nat.lt_or_ge j (rstrip r).length with h | h
  · conv_rhs => rw [hk]
    rw [List.getD_append _ _ _ _ h]
  · rw [List.getD_eq_default _ _ h]
    conv_rhs => rw [hk]
    rw [List.getD_append_right _ _ _ _ h, getD_replicate_self]

theorem rstrip_last_ne (r : List String) (h : rstrip r ≠ []) :
    (rstrip r).getD ((rstrip r).length - 1) "" ≠ "" := by
  cases hd : (r.reverse.dropWhile fun s => decide (s = "")) with
  | nil =>
    exfalso
    apply h
    rw [rstrip, hd]
    rfl
  | cons a t =>
    have ha : ¬(a = "") := by simpa using dropWhile_head_false hd
    have hlast : (rstrip r).getLast h = a := by
      have h1 : (rstrip r).getLast? = some a := by
        rw [rstrip, List.getLast?_reverse, hd]
        rfl
      have h2 := List.getLast?_eq_getLast_of_ne_nil h
      rw [h1] at h2
      exact (Option.some.inj h2).symm
    rw [getD_last _ _ h, hlast]
    exact ha

theorem stripRows_decomp (g : Grid) :
    ∃ k, g.map rstrip = stripRows g ++ List.replicate k ([] : List String) := by
  refine ⟨((g.map rstrip).reverse.takeWhile fun r => decide (r = [])).length, ?_⟩
  have h1 := congrArg List.reverse
    (List.takeWhile_append_dropWhile (fun r => decide (r = [])) (g.map rstrip).reverse)
  rw [List.reverse_append, List.reverse_reverse] at h1
  have h2 : ((g.map rstrip).reverse.takeWhile fun r => decide (r = [])).reverse =
      List.replicate ((g.map rstrip).reverse.takeWhile fun r => decide (r = [])).length
        ([] : List String) := by
    apply List.eq_replicate_iff.2
    refine ⟨by simp, fun b hb => ?_⟩
    have hbt : b ∈ (g.map rstrip).reverse.takeWhile (fun r => decide (r = [])) :=
      List.mem_reverse.1 hb
    have hp := mem_takeWhile_pred hbt
    exact of_decide_eq_true hp
  rw [stripRows]
  conv_lhs => rw [← h1]
  rw [h2]

theorem mapRstrip_getD (g : Grid) (i : Nat) :
    (g.map rstrip).getD i [] = rstrip (g.getD i []) := by
  rcases Nat.lt_or_ge i g.length with h | h
  · rw [List.getD_eq_getElem _ _ (by simpa using h), List.getD_eq_getElem _ _ h,
      List.getElem_map]
  · rw [List.getD_eq_default _ _ (by simpa using h), List.getD_eq_default _ _ h]
    rfl

theorem cell_eq_getD (g : Grid) (i j : Nat) :
    cell g i j = ((g.map rstrip).getD i []).getD j "" := by
  rw [mapRstrip_getD, getD_rstrip]
  rfl

theorem stripRows_getD (g : Grid) (i : Nat) (h : i < numRows g) :
    (stripRows g).getD i [] = (g.map rstrip).getD i [] := by
  obtain ⟨k, hk⟩ := stripRows_decomp g
  rw [hk, List.getD_append _ _ _ _ h]

theorem cell_of_numRows_le (g : Grid) (i j : Nat) (h : numRows g ≤ i) : cell g i j = "" := by
  rw [cell_eq_getD]
  obtain ⟨k, hk⟩ := stripRows_decomp g
  rw [hk, List.getD_append_right _ _ _ _ h, getD_replicate_self]
  rfl

theorem foldr_max_le {l : List (List String)} {r : List String} (hr : r ∈ l) :
    r.length ≤ l.foldr (fun r m => max r.length m) 0 := by
  induction l with
  | nil => cases hr
  | cons x xs ih =>
    rcases List.mem_cons.1 hr with rfl | h
    · exact Nat.le_max_left _ _
    · exact Nat.le_trans (ih h) (Nat.le_max_right _ _)

theorem length_rstrip_le_numCols (g : Grid) (i : Nat) :
    ((g.map rstrip).getD i []).length ≤ numCols g := by
  rcases Nat.lt_or_ge i (numRows g) with h | h
  · rw [← stripRows_getD g i h]
    have hm : (stripRows g).getD i [] ∈ stripRows g := by
      rw [List.getD_eq_getElem _ _ h]
      exact List.getElem_mem _
    exact foldr_max_le hm
  · obtain ⟨k, hk⟩ := stripRows_decomp g
    rw [hk, List.getD_append_right _ _ _ _ h, getD_replicate_self]
    exact Nat.zero_le _

theorem cell_of_numCols_le (g : Grid) (i j : Nat) (h : numCols g ≤ j) : cell g i j = "" := by
  rw [cell_eq_getD]
  exact List.getD_eq_default _ _ (Nat.le_trans (length_rstrip_le_numCols g i) h)

theorem lt_numRows_of_cell (g : Grid) (i j : Nat) (h : cell g i j ≠ "") : i < numRows g := by
  by_contra hc
  push_neg at hc
  exact h (cell_of_numRows_le g i j hc)

theorem lt_numCols_of_cell (g : Grid) (i j : Nat) (h : cell g i j ≠ "") : j < numCols g := by
  by_contra hc
  push_neg at hc
  exact h (cell_of_numCols_le g i j hc)

theorem getD_padTo (w : Nat) (r : List String) (j : Nat) :
    (padTo w r).getD j "" = r.getD j "" := by
  unfold padTo
  rcases Nat.lt_or_ge j r.length with h | h
  · rw [List.getD_append _ _ _ _ h]
  · rw [List.getD_append_right _ _ _ _ h, List.getD_eq_default _ _ h, getD_replicate_self]

theorem padTo_eq_range_map (w : Nat) (r : List String) (h : r.length ≤ w) :
    padTo w r = (List.range w).map fun j => r.getD j "" := by
  apply List.ext_getElem (by simp [padTo]; omega)
  intro j h1 h2
  rw [List.getElem_map, List.getElem_range, ← List.getD_eq_getElem (padTo w r) "" h1,
    getD_padTo]

theorem getValues_canon (g : Grid) :
    getValues g = (List.range (numRows g)).map
      (fun i => (List.range (numCols g)).map fun j => cell g i j) := by
  unfold getValues
  apply List.ext_getElem (by simp [numRows])
  intro i h1 h2
  rw [List.getElem_map, List.getElem_map, List.getElem_range]
  have hi : i < numRows g := by simpa using h2
  have hlen : ((stripRows g)[i]).length ≤ numCols g := foldr_max_le (List.getElem_mem _)
  rw [padTo_eq_range_map _ _ hlen]
  refine List.map_congr_left fun j hj => ?_
  have hcell : cell g i j = ((stripRows g)[i]).getD j "" := by
    rw [cell_eq_getD, ← stripRows_getD g i hi, List.getD_eq_getElem _ _ hi]
  exact hcell.symm

theorem length_getValues (g : Grid) : (getValues g).length = numRows g := by
  rw [getValues_canon]
  simp

theorem numRows_pos_cell (g : Grid) (h : 0 < numRows g) :
    ∃ j, cell g (numRows g - 1) j ≠ "" := by
  have hnn : stripRows g ≠ [] := by
    intro he
    rw [numRows, he] at h
    simp at h
  cases hd : ((g.map rstrip).reverse.dropWhile fun r => decide (r = [])) with
  | nil =>
    exfalso
    apply hnn
    rw [stripRows, hd]
    rfl
  | cons a t =>
    have ha : a ≠ [] := by simpa using dropWhile_head_false hd
    have hlasta : (stripRows g).getLast hnn = a := by
      have h1 : (stripRows g).getLast? = some a := by
        rw [stripRows, List.getLast?_reverse, hd]
        rfl
      have h2 := List.getLast?_eq_getLast_of_ne_nil hnn
      rw [h1] at h2
      exact (Option.some.inj h2).symm
    have hrow : (g.map rstrip).getD (numRows g - 1) [] = a := by
      rw [← stripRows_getD g _ (by omega)]
      show (stripRows g).getD ((stripRows g).length - 1) [] = a
      rw [getD_last _ _ hnn, hlasta]
    have ha2 : rstrip (g.getD (numRows g - 1) []) = a := by
      rw [← mapRstrip_getD, hrow]
    refine ⟨a.length - 1, ?_⟩
    rw [cell_eq_getD, hrow]
    have := rstrip_last_ne (g.getD (numRows g - 1) []) (by rw [ha2]; exact ha)
    rw [ha2] at this
    exact this

theorem numRows_le_of_blank (g : Grid) (n : Nat)
    (h : ∀ i j, n ≤ i → cell g i j = "") : numRows g ≤ n := by
  by_contra hc
  push_neg at hc
  have h0 : 0 < numRows g := Nat.lt_of_le_of_lt (Nat.zero_le n) hc
  obtain ⟨j, hj⟩ := numRows_pos_cell g h0
  exact hj (h _ j (by omega))

theorem foldr_max_attained (l : List (List String))
    (h : 0 < l.foldr (fun r m => max r.length m) 0) :
    ∃ r ∈ l, r.length = l.foldr (fun r m => max r.length m) 0 := by
  induction l with
  | nil => simp at h
  | cons x xs ih =>
    simp only [List.foldr_cons] at h ⊢
    rcases Nat.le_total (xs.foldr (fun r m => max r.length m) 0) x.length with hle | hle
    · exact ⟨x, List.mem_cons_self _ _, (Nat.max_eq_left hle).symm⟩
    · rw [Nat.max_eq_right hle] at h ⊢
      obtain ⟨r, hr, he⟩ := ih h
      exact ⟨r, List.mem_cons_of_mem _ hr, he⟩

theorem numCols_pos_cell (g : Grid) (h : 0 < numCols g) :
    ∃ i, i < numRows g ∧ cell g i (numCols g - 1) ≠ "" := by
  obtain ⟨r, hr, he⟩ := foldr_max_attained (stripRows g) h
  obtain ⟨i, hi, hieq⟩ := List.mem_iff_getElem.1 hr
  refine ⟨i, hi, ?_⟩
  have hrr : rstrip (g.getD i []) = r := by
    rw [← mapRstrip_getD, ← stripRows_getD g i hi, List.getD_eq_getElem _ _ hi, hieq]
  have hne : rstrip (g.getD i []) ≠ [] := by
    rw [hrr]
    intro he2
    rw [he2] at he
    have h0 : (0 : Nat) = numCols g := by simpa using he
    omega
  have hlast := rstrip_last_ne (g.getD i []) hne
  have hlen2 : (rstrip (g.getD i [])).length = numCols g := by rw [hrr]; exact he
  rw [cell_eq_getD, mapRstrip_getD, ← hlen2]
  exact hlast

theorem numCols_le_of_blank (g : Grid) (w : Nat)
    (h : ∀ i j, w ≤ j → cell g i j = "") : numCols g ≤ w := by
  by_contra hc
  push_neg at hc
  have h0 : 0 < numCols g := Nat.lt_of_le_of_lt (Nat.zero_le w) hc
  obtain ⟨i, -, hne⟩ := numCols_pos_cell g h0
  exact hne (h i _ (by omega))

theorem numRows_congr {g g' : Grid} (h : ∀ i j, cell g i j = cell g' i j) :
    numRows g = numRows g' := by
  apply Nat.le_antisymm
  · apply numRows_le_of_blank
    intro i j hi
    rw [h]
    exact cell_of_numRows_le g' i j hi
  · apply numRows_le_of_blank
    intro i j hi
    rw [← h]
    exact cell_of_numRows_le g i j hi

theorem getValues_congr {g g' : Grid} (h : ∀ i j, cell g i j = cell g' i j) :
    getValues g = getValues g' := by
  have hr := numRows_congr h
  have hc : numCols g = numCols g' := by
    apply Nat.le_antisymm
    · apply numCols_le_of_blank
      intro i j hj
      rw [h]
      exact cell_of_numCols_le g' i j hj
    · apply numCols_le_of_blank
      intro i j hj
      rw [← h]
      exact cell_of_numCols_le g i j hj
  rw [getValues_canon, getValues_canon, hr, hc]
  refine List.map_congr_left fun i _ => ?_
  refine List.map_congr_left fun j _ => ?_
  exact h i j

theorem cell_nil (i j : Nat) : cell ([] : Grid) i j = "" := by
  simp [cell, List.getD_nil]

theorem cell_cons_zero (r : List String) (g : Grid) (j : Nat) :
    cell (r :: g) 0 j = r.getD j "" := by
  simp [cell, List.getD_cons_zero]

theorem cell_cons_succ (r : List String) (g : Grid) (i j : Nat) :
    cell (r :: g) (i + 1) j = cell g i j := by
  simp [cell, List.getD_cons_succ]

theorem getD_overlayRow (old new : List String) (j : Nat) :
    (overlayRow old new).getD j "" =
      if j < new.length then new.getD j "" else old.getD j "" := by
  unfold overlayRow
  rcases Nat.lt_or_ge j new.length with h | h
  · rw [if_pos h, List.getD_append _ _ _ _ h]
  · rw [if_neg (by omega), List.getD_append_right _ _ _ _ h]
    have harith : new.length + (j - new.length) = j := by omega
    rw [List.getD_eq_getD_get?, List.get?_eq_getElem?, List.getElem?_drop, harith,
      ← List.get?_eq_getElem?, ← List.getD_eq_getD_get?]

theorem overlay_nil (g : Grid) : overlay g [] = g := by cases g <;> rfl

theorem overlay_getD (g t : Grid) (i : Nat) :
    (overlay g t).getD i [] =
      if i < t.length then overlayRow (g.getD i []) (t.getD i []) else g.getD i [] := by
  induction t generalizing g i with
  | nil =>
    rw [overlay_nil, if_neg (by simp)]
  | cons v vs ih =>
    cases g with
    | nil =>
      cases i with
      | zero =>
        show (v :: overlay [] vs).getD 0 [] = _
        have h2 : (0 : Nat) < (v :: vs).length := by simp
        rw [if_pos h2]
        simp only [List.getD_cons_zero, List.getD_nil]
        unfold overlayRow
        simp
      | succ i =>
        show (v :: overlay [] vs).getD (i + 1) [] = _
        simp only [List.getD_cons_succ, List.getD_nil]
        rw [ih]
        simp only [List.getD_nil]
        rcases Nat.lt_or_ge i vs.length with h | h
        · have h2 : i + 1 < (v :: vs).length := by simp; omega
          rw [if_pos h, if_pos h2]
        · have h1 : ¬(i < vs.length) := by omega
          have h2 : ¬(i + 1 < (v :: vs).length) := by simp; omega
          rw [if_neg h1, if_neg h2]
    | cons r gr =>
      cases i with
      | zero =>
        show (overlayRow r v :: overlay gr vs).getD 0 [] = _
        have h2 : (0 : Nat) < (v :: vs).length := by simp
        rw [if_pos h2]
        simp only [List.getD_cons_zero]
      | succ i =>
        show (overlayRow r v :: overlay gr vs).getD (i + 1) [] = _
        simp only [List.getD_cons_succ]
        rw [ih]
        rcases Nat.lt_or_ge i vs.length with h | h
        · have h2 : i + 1 < (v :: vs).length := by simp; omega
          rw [if_pos h, if_pos h2]
        · have h1 : ¬(i < vs.length) := by omega
          have h2 : ¬(i + 1 < (v :: vs).length) := by simp; omega
          rw [if_neg h1, if_neg h2]

theorem cell_overlay (g t : Grid) (i j : Nat) :
    cell (overlay g t) i j =
      if i < t.length then
        (if j < (t.getD i []).length then (t.getD i []).getD j "" else cell g i j)
      else cell g i j := by
  show ((overlay g t).getD i []).getD j "" = _
  rw [overlay_getD]
  rcases Nat.lt_or_ge i t.length with h | h
  · rw [if_pos h, if_pos h, getD_overlayRow]
    rfl
  · have h1 : ¬(i < t.length) := by omega
    rw [if_neg h1, if_neg h1]
    rfl

theorem cell_afterClear (g : Grid) (h0 : List String) (d0 : List (List String))
    (hg : getValues g = h0 :: d0) (i j : Nat) :
    cell (overlay g (h0 :: d0.map fun r => r.map fun _ => "")) i j =
      if i = 0 then cell g 0 j else "" := by
  have hcanon := getValues_canon g
  rw [hg] at hcanon
  have hn : numRows g = d0.length + 1 := by
    have hlen := congrArg List.length hcanon
    simp at hlen
    omega
  rw [hn, List.range_succ_eq_map, List.map_cons] at hcanon
  injection hcanon with hh0eq hd0eq
  have hh0 : ∀ j, h0.getD j "" = cell g 0 j := by
    intro j
    rcases Nat.lt_or_ge j (numCols g) with h | h
    · rw [hh0eq, List.getD_eq_getElem _ _ (by simpa using h), List.getElem_map,
        List.getElem_range]
    · rw [List.getD_eq_default _ _ (by rw [hh0eq]; simpa using h),
        cell_of_numCols_le g 0 j h]
  have hblankrow : ∀ (r : List String) (j : Nat),
      (r.map fun _ => ("" : String)).getD j "" = "" := by
    intro r j
    rcases Nat.lt_or_ge j r.length with h | h
    · rw [List.getD_eq_getElem _ _ (by simpa using h), List.getElem_map]
    · exact List.getD_eq_default _ _ (by simpa using h)
  have hd0len : ∀ i', i' < d0.length → (d0.getD i' []).length = numCols g := by
    intro i' h
    conv_lhs => rw [hd0eq]
    rw [List.getD_eq_getElem _ _ (by simpa using h), List.getElem_map]
    simp
  rw [cell_overlay]
  by_cases hi0 : i = 0
  · subst hi0
    rw [if_pos (by simp), List.getD_cons_zero, if_pos rfl]
    rcases Nat.lt_or_ge j h0.length with h | h
    · rw [if_pos h, hh0]
    · rw [if_neg (by omega)]
  · obtain ⟨i', rfl⟩ : ∃ i', i = i' + 1 := ⟨i - 1, by omega⟩
    rw [if_neg hi0]
    rcases Nat.lt_or_ge (i' + 1)
        ((h0 :: d0.map fun r => r.map fun _ => ("" : String)).length) with h | h
    · rw [if_pos h, List.getD_cons_succ]
      have hi' : i' < d0.length := by simpa using h
      rw [List.getD_eq_getElem _ _ (by simpa using hi'), List.getElem_map]
      have hw : (d0[i']).length = numCols g := by
        have hwd := hd0len i' hi'
        rw [List.getD_eq_getElem _ _ hi'] at hwd
        exact hwd
      rcases Nat.lt_or_ge j ((d0[i']).map fun _ => ("" : String)).length with hj | hj
      · rw [if_pos hj, hblankrow]
      · rw [if_neg (by omega)]
        apply cell_of_numCols_le g _ j
        rw [← hw]
        simpa using hj
    · rw [if_neg (by omega)]
      apply cell_of_numRows_le g _ j
      rw [hn]
      simpa using h

/-! ## Claim theorem: the clear step -/

/-- C10: `empty_sheet` preserves the destination's header row: the first
row of the table it writes back is exactly the header row it read, every
other written cell is the empty string, and in the resulting sheet state
row 1 is unchanged while the cells of all data rows are empty. -/
theorem c10_clear_preserves_header (g : Grid) (h0 : List String) (d0 : List (List String))
    (hg : getValues g = h0 :: d0) :
    emptySheetWrite g = some (h0 :: d0.map fun r => r.map fun _ => "") ∧
    (∀ r ∈ d0.map (fun r => r.map fun _ => ("" : String)), ∀ c ∈ r, c = "") ∧
    (∀ j, cell (overlay g (h0 :: d0.map fun r => r.map fun _ => "")) 0 j = cell g 0 j) ∧
    (∀ i j, 1 ≤ i → cell (overlay g (h0 :: d0.map fun r => r.map fun _ => "")) i j = "") := by
  refine ⟨?_, ?_, fun j => ?_, fun i j hi => ?_⟩
  · simp only [emptySheetWrite, hg]
  · intro r hr c hc
    obtain ⟨r0, -, hr0⟩ := List.mem_map.1 hr
    rw [← hr0] at hc
    obtain ⟨x, -, hx⟩ := List.mem_map.1 hc
    exact hx.symm
  · rw [cell_afterClear g h0 d0 hg, if_pos rfl]
  · rw [cell_afterClear g h0 d0 hg, if_neg (by omega)]

/-- Witness for C10 at a concrete destination sheet. -/
theorem c10_witness :
    emptySheetWrite cDest10 =
      some (keeps :: [cStale, cStale, cStale, cStale, cStale].map fun r => r.map fun _ => "") :=
  (c10_clear_preserves_header cDest10 keeps [cStale, cStale, cStale, cStale, cStale]
    (by decide)).1

/-! ## Lemmas: the sync phase -/

theorem getFilteredData_elim {df pr : List String × List (List Cell)}
    (hf : getFilteredData df = some pr) :
    pr.1 = keeps ∧ pr.2 = (df.2.filter (rowPasses df.1)).map (projectRow df.1) := by
  unfold getFilteredData at hf
  split at hf
  · obtain rfl := Option.some.inj hf
    exact ⟨rfl, rfl⟩
  · cases hf

theorem toStringRows_elim {rows : List (List Cell)} {srows : List (List String)}
    (h : toStringRows rows = some srows) :
    srows = rows.map (fun r => r.map cellStr) ∧ ∀ r ∈ rows, ∀ c ∈ r, isStr c = true := by
  unfold toStringRows at h
  split at h
  · rename_i hall
    obtain rfl := Option.some.inj h
    exact ⟨rfl, fun r hr c hc => List.all_eq_true.1 (List.all_eq_true.1 hall r hr) c hc⟩
  · cases h

theorem cleanCell_str {o : Option Cell} {y : String} (h : cleanCell o = Cell.str y) :
    ∃ s, o = some (Cell.str s) ∧ s ≠ "" := by
  cases o with
  | none =>
    rw [show cleanCell none = Cell.nan from rfl] at h
    cases h
  | some c =>
    cases c with
    | nan =>
      rw [show cleanCell (some Cell.nan) = Cell.nan from rfl] at h
      cases h
    | str s =>
      refine ⟨s, rfl, fun he => ?_⟩
      subst he
      rw [show cleanCell (some (Cell.str "")) = Cell.nan from rfl] at h
      cases h

theorem syncRun_elim {fmt : String → Option Cell} {src : List (List String)} {g gout : Grid}
    (h : syncRun fmt src g = some gout) :
    ∃ df pr srows h0 d0, makeCallingsData fmt src = some df ∧
      getFilteredData df = some pr ∧ toStringRows pr.2 = some srows ∧
      getValues g = h0 :: d0 ∧
      gout = overlay (overlay g (h0 :: d0.map fun r => r.map fun _ => "")) (pr.1 :: srows) := by
  unfold syncRun at h
  split at h
  · cases h
  · rename_i df hm
    split at h
    · cases h
    · rename_i pr hf
      split at h
      · cases h
      · rename_i srows hs
        split at h
        · cases h
        · rename_i blanked hesw
          cases hgv : getValues g with
          | nil =>
            have hnone : emptySheetWrite g = none := by simp only [emptySheetWrite, hgv]
            rw [hnone] at hesw
            cases hesw
          | cons h0 d0 =>
            have h2 : emptySheetWrite g = some (h0 :: d0.map fun r => r.map fun _ => "") := by
              simp only [emptySheetWrite, hgv]
            rw [h2] at hesw
            have hb := Option.some.inj hesw
            refine ⟨df, pr, srows, h0, d0, hm, hf, hs, rfl, ?_⟩
            rw [← hb] at h
            exact (Option.some.inj h).symm

theorem cell_syncResult (g : Grid) (h0 : List String) (d0 : List (List String))
    (hg : getValues g = h0 :: d0) (t : Grid) (ht : t ≠ []) (i j : Nat) :
    cell (overlay (overlay g (h0 :: d0.map fun r => r.map fun _ => "")) t) i j =
      if i < t.length then
        (if j < (t.getD i []).length then (t.getD i []).getD j ""
         else if i = 0 then cell g 0 j else "")
      else "" := by
  rw [cell_overlay]
  rcases Nat.lt_or_ge i t.length with h | h
  · rw [if_pos h, if_pos h]
    rcases Nat.lt_or_ge j (t.getD i []).length with hj | hj
    · rw [if_pos hj, if_pos hj]
    · have hj1 : ¬(j < (t.getD i []).length) := by omega
      rw [if_neg hj1, if_neg hj1, cell_afterClear g h0 d0 hg]
  · have h1 : ¬(i < t.length) := by omega
    rw [if_neg h1, if_neg h1, cell_afterClear g h0 d0 hg]
    have hne : i ≠ 0 := by
      have := List.length_pos.2 ht
      omega
    rw [if_neg hne]

/-! ## Claim theorems: Sheet Sync -/

/-- C2 (amended): after a successful sync run the destination holds
exactly one header row plus one data row per filtered row — in
particular, a destination that previously had 5 data rows and receives 2
filtered rows ends with exactly 2 data rows, no leftovers — and, provided
the previous destination table had at most the 10 written columns, the
destination's values are exactly the `keeps` header row followed by the
filtered rows.  The unamended claim is refuted by `c2_counterexample`:
the clear step blanks only data cells and preserves the header row, so a
wider previous header leaves stale header cells behind. -/
theorem c2_clear_then_write (fmt : String → Option Cell) (src : List (List String))
    (g gout : Grid) (pr : List String × List (List Cell)) (srows : List (List String))
    (hdf : (makeCallingsData fmt src).bind getFilteredData = some pr)
    (hs : toStringRows pr.2 = some srows)
    (hrun : syncRun fmt src g = some gout) :
    (getValues gout).length = 1 + srows.length ∧
    (numCols g ≤ 10 → getValues gout = keeps :: srows) := by
  obtain ⟨df, hm, hf⟩ := Option.bind_eq_some.1 hdf
  obtain ⟨df2, pr2, srows2, h0, d0, hm2, hf2, hs2, hgv, hout⟩ := syncRun_elim hrun
  rw [hm] at hm2
  obtain rfl := Option.some.inj hm2
  rw [hf] at hf2
  obtain rfl := Option.some.inj hf2
  rw [hs] at hs2
  obtain rfl := Option.some.inj hs2
  obtain ⟨hpr1, hpr2⟩ := getFilteredData_elim hf
  obtain ⟨hsr, -⟩ := toStringRows_elim hs
  have hm' : makeCallingsData fmt src = some (df.1, df.2) := hm
  obtain ⟨hdr, data, -, hdfh, hdfr, hrect, -, -⟩ := makeCallingsData_elim hm'
  have hrowfacts : ∀ r ∈ srows, r.length = 10 ∧ r.getD 6 "" ≠ "" := by
    intro r hr
    rw [hsr] at hr
    obtain ⟨rc, hrc, hrceq⟩ := List.mem_map.1 hr
    rw [hpr2] at hrc
    obtain ⟨r0, h0m, hr0eq⟩ := List.mem_map.1 hrc
    have hpass := (List.mem_filter.1 h0m).2
    have h0mem := (List.mem_filter.1 h0m).1
    rw [hdfr] at h0mem
    obtain ⟨rs, hrs, hrseq⟩ := List.mem_map.1 h0mem
    have hlen : rs.length = hdr.length := hrect rs hrs
    have hpass2 : getCell df.1 r0 "cleaned_approval_text" = some (Cell.str "y") ∧
        getCell df.1 r0 "Recorded" = some (Cell.str "") := of_decide_eq_true hpass
    have hap : approvalCell fmt hdr rs = Cell.str "y" := by
      have hp1 := hpass2.1
      rw [← hrseq, hdfh, getCell_transRow_cleaned fmt hlen] at hp1
      exact Option.some.inj hp1
    rw [approvalCell_eq fmt hlen] at hap
    obtain ⟨s, hso, hsne⟩ := cleanCell_str hap
    have hbish : getCell df.1 r0 "BishopApproval" = some (Cell.str s) := by
      rw [← hrseq, hdfh, getCell_transRow_bishop fmt hlen, hso]
    have h6 : rc.getD 6 Cell.nan = Cell.str s := by
      rw [← hr0eq]
      have hpr6 : (projectRow df.1 r0).getD 6 Cell.nan =
          (getCell df.1 r0 "BishopApproval").getD Cell.nan := rfl
      rw [hpr6, hbish]
      rfl
    have hrclen : rc.length = 10 := by
      rw [← hr0eq]
      rfl
    rw [← hrceq]
    constructor
    · rw [List.length_map, hrclen]
    · have hmap : (rc.map cellStr).getD 6 "" = cellStr (rc.getD 6 Cell.nan) := by
        have hlen6 : 6 < rc.length := by omega
        rw [List.getD_eq_getElem _ _ (by simpa using hlen6), List.getElem_map,
          List.getD_eq_getElem _ _ hlen6]
      rw [hmap, h6]
      exact hsne
  have ht : (pr.1 :: srows) ≠ [] := by simp
  have hcell : ∀ i j, cell gout i j =
      if i < (pr.1 :: srows).length then
        (if j < ((pr.1 :: srows).getD i []).length then ((pr.1 :: srows).getD i []).getD j ""
         else if i = 0 then cell g 0 j else "")
      else "" := by
    intro i j
    rw [hout]
    exact cell_syncResult g h0 d0 hgv _ ht i j
  have hrows10 : ∀ i', i' < srows.length → (srows.getD i' []).length = 10 := by
    intro i' h
    have hmem : srows.getD i' [] ∈ srows := by
      rw [List.getD_eq_getElem _ _ h]
      exact List.getElem_mem _
    exact (hrowfacts _ hmem).1
  have hklen : keeps.length = 10 := rfl
  have hgetD0 : (pr.1 :: srows).getD 0 [] = keeps := by rw [List.getD_cons_zero, hpr1]
  have hcell00 : cell gout 0 0 ≠ "" := by
    rw [hcell 0 0, if_pos (by simp), hgetD0,
      if_pos (show (0 : Nat) < keeps.length by decide)]
    decide
  have hnr_le : numRows gout ≤ (pr.1 :: srows).length := by
    apply numRows_le_of_blank
    intro i j hi
    rw [hcell i j, if_neg (by omega)]
  have hnr_ge : (pr.1 :: srows).length ≤ numRows gout := by
    cases hsr0 : srows with
    | nil =>
      have hlt := lt_numRows_of_cell gout 0 0 hcell00
      simp [hsr0]
      omega
    | cons s0 stail =>
      rw [← hsr0]
      have hsne : srows ≠ [] := by rw [hsr0]; simp
      have hlastmem : srows.getLast hsne ∈ srows := List.getLast_mem hsne
      obtain ⟨hlen10, hne6⟩ := hrowfacts _ hlastmem
      have hlast : cell gout srows.length 6 ≠ "" := by
        rw [hcell]
        have hc1 : srows.length < (pr.1 :: srows).length := by simp
        rw [if_pos hc1]
        have hgd : (pr.1 :: srows).getD srows.length [] = srows.getLast hsne := by
          have hidx : (pr.1 :: srows).getD srows.length [] =
              (pr.1 :: srows).getD ((pr.1 :: srows).length - 1) [] := by simp
          rw [hidx, getD_last _ _ (by simp)]
          exact List.getLast_cons hsne
        rw [hgd, if_pos (by rw [hlen10]; omega)]
        exact hne6
      have hlt := lt_numRows_of_cell gout _ _ hlast
      have hle2 : (pr.1 :: srows).length = srows.length + 1 := by simp
      omega
  have hnr : numRows gout = srows.length + 1 := by
    have h1 := hnr_le
    have h2 := hnr_ge
    simp at h1 h2
    omega
  refine ⟨by rw [length_getValues, hnr]; omega, fun hw => ?_⟩
  have hnc_le : numCols gout ≤ 10 := by
    apply numCols_le_of_blank
    intro i j hj
    rw [hcell i j]
    by_cases hi : i < (pr.1 :: srows).length
    · rw [if_pos hi]
      have hwidth : ((pr.1 :: srows).getD i []).length ≤ 10 := by
        cases i with
        | zero =>
          rw [hgetD0]
          exact Nat.le_of_eq hklen
        | succ i' =>
          rw [List.getD_cons_succ]
          rcases Nat.lt_or_ge i' srows.length with h | h
          · exact Nat.le_of_eq (hrows10 i' h)
          · rw [List.getD_eq_default _ _ (by omega)]
            exact Nat.zero_le _
      rw [if_neg (by omega)]
      by_cases hi0 : i = 0
      · rw [if_pos hi0]
        exact cell_of_numCols_le g 0 j (by omega)
      · rw [if_neg hi0]
    · rw [if_neg hi]
  have hc09 : cell gout 0 9 ≠ "" := by
    rw [hcell 0 9, if_pos (by simp), hgetD0,
      if_pos (show (9 : Nat) < keeps.length by decide)]
    decide
  have hnc : numCols gout = 10 := by
    have hlt := lt_numCols_of_cell gout 0 9 hc09
    omega
  rw [getValues_canon, hnr, hnc, List.range_succ_eq_map srows.length, List.map_cons]
  rw [← hpr1]
  congr 1
  · have hr0 : ∀ j ∈ List.range 10, cell gout 0 j = keeps.getD j "" := by
      intro j hj
      have hj10 : j < 10 := by simpa using hj
      rw [hcell 0 j, if_pos (by simp), hgetD0, if_pos (by rw [hklen]; omega)]
    rw [List.map_congr_left hr0]
    have hrmg := range_map_getD keeps ""
    rw [hklen] at hrmg
    rw [hrmg, hpr1]
  · rw [List.map_map]
    apply List.ext_getElem (by simp)
    intro i' h1 h2
    have hi's : i' < srows.length := by simpa using h2
    rw [List.getElem_map, List.getElem_range]
    show (List.range 10).map (fun j => cell gout (i' + 1) j) = srows[i']
    have hrw : ∀ j ∈ List.range 10, cell gout (i' + 1) j = (srows.getD i' []).getD j "" := by
      intro j hj
      have hj10 : j < 10 := by simpa using hj
      rw [hcell, if_pos (by simp; omega), List.getD_cons_succ,
        if_pos (by rw [hrows10 i' hi's]; omega)]
    rw [List.map_congr_left hrw]
    have h10 : (10 : Nat) = (srows.getD i' []).length := (hrows10 i' hi's).symm
    rw [h10, range_map_getD, List.getD_eq_getElem _ _ hi's]

/-- Witness for C2 (amended) at a concrete run: the destination has 5
stale data rows, the filtered result has 2 rows, and after the run the
destination has exactly 2 data rows. -/
theorem c2_witness :
    (getValues cAfter1).length = 1 + [cFiltered1, cFiltered4].length ∧
    (numCols cDest10 ≤ 10 → getValues cAfter1 = keeps :: [cFiltered1, cFiltered4]) :=
  c2_clear_then_write cFmt cSrcW cDest10 cAfter1 cPr [cFiltered1, cFiltered4]
    (by decide) (by decide) (by decide)

/-- Counterexample to C2 as stated: a successful sync run into a
destination whose header has an 11th column `"Extra"`.  The clear step
does not overwrite every cell with the empty string — it writes the
header row back unchanged — so the stale header cell `"Extra"` survives
and the destination does not contain exactly the header row followed by
the filtered rows. -/
theorem c2_counterexample :
    syncRun cFmt cSrc cDestWide = some cWideOut ∧
    getValues cWideOut ≠ keeps :: [cFiltered1] ∧
    (getValues cWideOut).getD 0 [] = keeps ++ ["Extra"] ∧
    emptySheetWrite cDestWide =
      some [keeps ++ ["Extra"], ["", "", "", "", "", "", "", "", "", "", ""]] :=
  ⟨by decide, by decide, by decide, by decide⟩

/-- C8: Sheet Sync is idempotent with respect to an unchanged source:
after a successful run, running the same sync again succeeds and leaves
the destination's values exactly as the first run left them. -/
theorem c8_sync_idempotent (fmt : String → Option Cell) (src : List (List String))
    (g g1 : Grid) (hrun : syncRun fmt src g = some g1) :
    ∃ g2, syncRun fmt src g1 = some g2 ∧ getValues g2 = getValues g1 := by
  obtain ⟨df, pr, srows, h0, d0, hm, hf, hs, hgv, hout⟩ := syncRun_elim hrun
  obtain ⟨hpr1, -⟩ := getFilteredData_elim hf
  have ht : (pr.1 :: srows) ≠ [] := by simp
  have hcell1 : ∀ i j, cell g1 i j =
      if i < (pr.1 :: srows).length then
        (if j < ((pr.1 :: srows).getD i []).length then ((pr.1 :: srows).getD i []).getD j ""
         else if i = 0 then cell g 0 j else "")
      else "" := by
    intro i j
    rw [hout]
    exact cell_syncResult g h0 d0 hgv _ ht i j
  have hgetD0 : (pr.1 :: srows).getD 0 [] = keeps := by rw [List.getD_cons_zero, hpr1]
  have hcell00 : cell g1 0 0 ≠ "" := by
    rw [hcell1 0 0, if_pos (by simp), hgetD0,
      if_pos (show (0 : Nat) < keeps.length by decide)]
    decide
  have hpos : 0 < numRows g1 := lt_numRows_of_cell g1 0 0 hcell00
  cases hgv1 : getValues g1 with
  | nil =>
    exfalso
    have h0' := length_getValues g1
    rw [hgv1] at h0'
    simp at h0'
    omega
  | cons h2 d2 =>
    have hesw1 : emptySheetWrite g1 = some (h2 :: d2.map fun r => r.map fun _ => "") := by
      simp only [emptySheetWrite, hgv1]
    have hrun2 : syncRun fmt src g1 =
        some (overlay (overlay g1 (h2 :: d2.map fun r => r.map fun _ => ""))
          (pr.1 :: srows)) := by
      simp only [syncRun, hm, hf, hs, hesw1]
    refine ⟨_, hrun2, ?_⟩
    rw [← hgv1]
    apply getValues_congr
    intro i j
    have hcell2 := cell_syncResult g1 h2 d2 hgv1 (pr.1 :: srows) ht i j
    rw [hcell2, hcell1 i j]
    by_cases hi : i < (pr.1 :: srows).length
    · rw [if_pos hi, if_pos hi]
      by_cases hj : j < ((pr.1 :: srows).getD i []).length
      · rw [if_pos hj, if_pos hj]
      · rw [if_neg hj, if_neg hj]
        by_cases hi0 : i = 0
        · subst hi0
          rw [if_pos rfl, if_pos rfl]
          rw [hcell1 0 j, if_pos (by simp), if_neg hj, if_pos rfl]
        · rw [if_neg hi0, if_neg hi0]
    · rw [if_neg hi, if_neg hi]

/-- Witness for C8 at a concrete run on an unchanged source. -/
theorem c8_witness :
    ∃ g2, syncRun cFmt cSrcW cAfter1 = some g2 ∧ getValues g2 = getValues cAfter1 :=
  c8_sync_idempotent cFmt cSrcW cDest10 cAfter1 (by decide)

/-- Witness for C3 at a concrete run state. -/
theorem c3_witness :
    logEntry "2024-01-01 10:00:00" false =
      "2024-01-01 10:00:00" ++ "  ERROR  Job failed\n" :=
  (c3_failure_boundary () () "2024-01-01 10:00:00" ⟨[], ["# readme"]⟩).2.2.2.2

end WardCallings
